import Mathlib

set_option maxRecDepth 100000

attribute [local semireducible] Rat.add Rat.mul Rat.inv Rat.sub Rat.ofScientific

/-!
Verification development for the FinWise SEM stock-comparison data pipeline
(`src/App.js`).  The repository file contains two lineages of the same
application (an expanded "CRA" variant follows the first component after a
document separator); where the two lineages differ the definitions below
carry an `L1` / `L2` suffix, and where they are character-for-character the
same algorithm a single definition is shared and the doc comment says so.

Modelling conventions:
* JavaScript strings are modelled as `List Char` (`Chars`); the `String`
  boundary is crossed only in concrete examples via `String.data`.
* JavaScript numbers are modelled as exact rationals; `NaN` and the two
  infinities are modelled explicitly by `JsNum` where the code can observe
  them (`parseFloat` / `Number.isFinite`).
* JavaScript objects built by zipping header keys with values are modelled
  as association lists in insertion order; lookups follow JS semantics
  (last assignment wins), which coincides with ordinary association-list
  lookup whenever the keys are distinct.
* `null`/absent values are `Option.none`; JS truthiness of a
  number-or-null is "some non-zero value".
-/

abbrev Chars := List Char

/-- Whitespace class used by the model of JS `String.prototype.trim`
(ASCII whitespace; the exotic Unicode space classes never occur in the
repository's data). -/
def isWS (c : Char) : Bool :=
  c = ' ' || c = '\t' || c = '\n' || c = '\r' || c = '\x0b' || c = '\x0c'

/-- Model of JS `s.trim()`: drop whitespace from both ends. -/
def jsTrim (s : Chars) : Chars :=
  ((s.dropWhile isWS).reverse.dropWhile isWS).reverse

/-- Model of JS `s.split(sep)` for a single-character separator: every
occurrence splits, empty pieces are kept, the empty string yields one
empty piece. -/
def splitOnC (sep : Char) : Chars → List Chars
  | [] => [[]]
  | c :: rest =>
    let r := splitOnC sep rest
    if c = sep then [] :: r
    else
      match r with
      | [] => [[c]]
      | x :: xs => (c :: x) :: xs

/-- Drop a single trailing carriage return, used to model splitting on the
regular expression matching an optional CR followed by LF. -/
def dropCR (p : Chars) : Chars :=
  match p.reverse with
  | '\r' :: t => t.reverse
  | _ => p

/-- Apply `f` to every element except the last one. -/
def mapButLast (f : α → α) : List α → List α
  | [] => []
  | [x] => [x]
  | x :: y :: xs => f x :: mapButLast f (y :: xs)

/-- Model of lineage 2's line split on the regex for optional-CR-then-LF:
split on LF, then remove the CR that immediately preceded each consumed
LF (i.e. a trailing CR of every piece but the last). -/
def splitLinesCRLF (s : Chars) : List Chars :=
  mapButLast dropCR (splitOnC '\n' s)

/-- Model of the regex replace that deletes one leading and one trailing
literal quote character (the global anchored-quote pattern used by
`parseCSV` in both lineages). -/
def stripOuterQuotes (s : Chars) : Chars :=
  let s1 := match s with
    | '"' :: t => t
    | _ => s
  match s1.reverse with
  | '"' :: t => t.reverse
  | _ => s1

/-- A flushed CSV field: `current.trim()` then outer-quote removal, as both
lineages do for every header cell and every data cell. -/
def cleanField (cur : Chars) : Chars :=
  stripOuterQuotes (jsTrim cur)

/-- The character-by-character quote-toggle loop of `parseCSV` (both
lineages run the identical algorithm): a quote flips the inside-quotes
flag, a comma outside quotes flushes the current field, anything else
accumulates; at line end the buffer is flushed as the final field. -/
def parseLineGo : Chars → List Chars → Chars → Bool → List Chars
  | [], vals, cur, _ => vals ++ [cleanField cur]
  | c :: rest, vals, cur, inQ =>
    if c = '"' then parseLineGo rest vals cur (!inQ)
    else if c = ',' && !inQ then parseLineGo rest (vals ++ [cleanField cur]) [] inQ
    else parseLineGo rest vals (cur ++ [c]) inQ

/-- Parse one data line into its list of field values. -/
def parseLine (line : Chars) : List Chars :=
  parseLineGo line [] [] false

/-- Build a row object by walking the header list with its index and
taking the value at that index, or the empty string when missing
(lineage 1 writes value-or-empty via logical OR, lineage 2 via nullish
coalescing; the two coincide because the fallback is itself empty). -/
def mkRow : List Chars → Nat → List Chars → List (Chars × Chars)
  | [], _, _ => []
  | h :: hs, i, vals => (h, (vals.get? i).getD []) :: mkRow hs (i + 1) vals

/-- Lineage 1's line extraction: trim the whole text, split on bare LF,
keep lines that are non-blank after trimming. -/
def linesL1 (text : Chars) : List Chars :=
  (splitOnC '\n' (jsTrim text)).filter (fun l => !(jsTrim l).isEmpty)

/-- Lineage 2's line extraction: trim the whole text, split on
optional-CR-then-LF, keep non-empty lines. -/
def linesL2 (text : Chars) : List Chars :=
  (splitLinesCRLF (jsTrim text)).filter (fun l => !l.isEmpty)

/-- Header cells: the first line split naively on commas, each cell
trimmed and stripped of outer quotes (identical in both lineages). -/
def headersFrom (lines : List Chars) : List Chars :=
  match lines with
  | [] => []
  | h :: _ => (splitOnC ',' h).map cleanField

/-- Lineage 1 `parseCSV`: rows are header-zipped parsed lines, and rows
whose every value is blank after trimming are removed by the final
filter. -/
def parseRowsL1 (text : Chars) : List (List (Chars × Chars)) :=
  match linesL1 text with
  | [] => []
  | hline :: rest =>
    let headers := (splitOnC ',' hline).map cleanField
    (rest.map (fun line => mkRow headers 0 (parseLine line))).filter
      (fun row => row.any (fun kv => !(jsTrim kv.2).isEmpty))

/-- Lineage 2 `parseCSV`: rows are header-zipped parsed lines, with no
row-level filtering. -/
def parseRowsL2 (text : Chars) : List (List (Chars × Chars)) :=
  match linesL2 text with
  | [] => []
  | hline :: rest =>
    let headers := (splitOnC ',' hline).map cleanField
    rest.map (fun line => mkRow headers 0 (parseLine line))

example : parseRowsL1 "a,b\nx,y".data = [[("a".data, "x".data), ("b".data, "y".data)]] := by
  decide

example : parseRowsL2 "a,b\r\nx".data = [[("a".data, "x".data), ("b".data, "".data)]] := by
  decide

example : parseRowsL1 "h1,h2\n\"A,B\"".data = [[("h1".data, "A,B".data), ("h2".data, "".data)]] := by
  decide

/-! ## Calendar dates

`new Date(...)` values in the pipeline always sit at local midnight, so a
civil calendar date (year, 0-based month as in JS, day of month) models
them faithfully; timestamp comparison of two such values agrees with
lexicographic comparison of the triples. -/

structure CivDate where
  y : Int
  m : Nat
  d : Nat
deriving DecidableEq, Repr

/-- Gregorian leap-year test, as performed by the platform's date
arithmetic. -/
def isLeap (y : Int) : Bool :=
  (y % 4 = 0 && y % 100 ≠ 0) || y % 400 = 0

/-- Length of 0-based month `m` of year `y`. -/
def daysInMonth (y : Int) (m : Nat) : Nat :=
  if m = 1 then (if isLeap y then 29 else 28)
  else if m = 3 || m = 5 || m = 8 || m = 10 then 30
  else 31

theorem daysInMonth_pos (y : Int) (m : Nat) : 0 < daysInMonth y m := by
  unfold daysInMonth
  split
  · split <;> omega
  · split <;> omega

/-- Carry loop for `normDate`, structurally recursive on a fuel bounded
below by the number of carries needed (each carry removes at least 28
days, so a fuel of the day value itself is always enough and the
zero-fuel branch is unreachable on the calls made here). -/
def normDateGo : Nat → Int → Nat → Nat → CivDate
  | 0, y, m, d => ⟨y, m, d⟩
  | fuel + 1, y, m, d =>
    if d ≤ daysInMonth y m then ⟨y, m, d⟩
    else if m = 11 then normDateGo fuel (y + 1) 0 (d - daysInMonth y m)
    else normDateGo fuel y (m + 1) (d - daysInMonth y m)

/-- Resolve a day-of-month that may exceed the month length by carrying
into the following months, exactly as the platform's `MakeDay` does when
a date component overflows (e.g. February 31st becomes March 2nd or
3rd).  Expects a 0-based month at most 11 and a day at least 1. -/
def normDate (y : Int) (m : Nat) (d : Nat) : CivDate :=
  normDateGo d y m d

/-- Model of JS `setMonth(getMonth() - k)`: the month field is lowered by
`k`, negative months borrow from the year, and any day-of-month overflow
is then resolved by the standard rollover (both lineages use this for the
1M/3M/1Y/2Y/3Y windows). -/
def subMonths (dt : CivDate) (k : Nat) : CivDate :=
  let t : Int := dt.y * 12 + dt.m - k
  normDate (t.ediv 12) (t.emod 12).toNat dt.d

/-- Timestamp order on civil dates (valid civil dates at the same time of
day compare by year, then month, then day). -/
def dateLeB (a b : CivDate) : Bool :=
  a.y < b.y || (a.y = b.y && (a.m < b.m || (a.m = b.m && a.d ≤ b.d)))

/-- Strict timestamp order on civil dates. -/
def dateLtB (a b : CivDate) : Bool :=
  a.y < b.y || (a.y = b.y && (a.m < b.m || (a.m = b.m && a.d < b.d)))

example : subMonths ⟨2024, 2, 31⟩ 1 = ⟨2024, 2, 2⟩ := by decide

example : subMonths ⟨2024, 0, 15⟩ 1 = ⟨2023, 11, 15⟩ := by decide

example : subMonths ⟨2024, 4, 10⟩ 12 = ⟨2023, 4, 10⟩ := by decide

/-! ## JS numbers, `parseFloat` and `ToNumber` -/

/-- A JS number as observed by the normalizers: an exact finite value, the
not-a-number value, or a signed infinity.  (Finite doubles are modelled
as exact rationals; none of the claims depend on binary rounding.) -/
inductive JsNum where
  | num (q : ℚ)
  | nan
  | inf (pos : Bool)
deriving DecidableEq, Repr

/-- Numeric value of a digit string (most significant first). -/
def digitsVal (ds : Chars) : Nat :=
  ds.foldl (fun a c => a * 10 + (c.toNat - '0'.toNat)) 0

/-- Split a string into its leading run of decimal digits and the rest. -/
def takeDigits (s : Chars) : Chars × Chars :=
  (s.takeWhile Char.isDigit, s.dropWhile Char.isDigit)

/-- Model of JS `parseFloat`: skip leading whitespace, take an optional
sign, then the longest prefix forming a decimal literal (digits, optional
fraction, optional well-formed exponent; a dangling exponent marker is
ignored as `parseFloat` backtracks over it); the literal `Infinity` gives
an infinity and no usable prefix gives `NaN`.  Hexadecimal forms never
occur in the repository's data and are not modelled. -/
def parseFloatJ (s : Chars) : JsNum :=
  let s1 := s.dropWhile isWS
  let (neg, s2) : Bool × Chars :=
    match s1 with
    | '-' :: t => (true, t)
    | '+' :: t => (false, t)
    | _ => (false, s1)
  if "Infinity".data.isPrefixOf s2 then .inf (!neg)
  else
    let (ip, r1) := takeDigits s2
    let (fp, r2) :=
      match r1 with
      | '.' :: t => takeDigits t
      | _ => (([] : Chars), r1)
    if ip.isEmpty && fp.isEmpty then .nan
    else
      let base : ℚ := (digitsVal ip : ℚ) + (digitsVal fp : ℚ) / (10 : ℚ) ^ fp.length
      let expo : Int :=
        match r2 with
        | 'e' :: t => parseFloatExp t
        | 'E' :: t => parseFloatExp t
        | _ => 0
      let v : ℚ := base * (10 : ℚ) ^ expo
      .num (if neg then -v else v)
where
  /-- Exponent part after the marker: signed digits, or 0 when the
  marker is not followed by digits (in which case `parseFloat` stops
  before the marker, leaving the value unscaled). -/
  parseFloatExp (t : Chars) : Int :=
    match t with
    | '-' :: u => if (takeDigits u).1.isEmpty then 0 else -(digitsVal (takeDigits u).1 : Int)
    | '+' :: u => if (takeDigits u).1.isEmpty then 0 else (digitsVal (takeDigits u).1 : Int)
    | _ => if (takeDigits t).1.isEmpty then 0 else (digitsVal (takeDigits t).1 : Int)

example : parseFloatJ "12.5".data = .num (25 / 2) := by decide

example : parseFloatJ " -3".data = .num (-3) := by decide

example : parseFloatJ "abc".data = .nan := by decide

example : parseFloatJ "Infinity".data = .inf true := by decide

example : parseFloatJ "7x".data = .num 7 := by decide

/-- Model of JS `ToNumber` on a string, as applied by the `Date`
constructor to its arguments and by the subtraction in the month
expression: whitespace-trimmed empty means 0, otherwise the whole string
must be a signed decimal literal, anything else is `NaN` (`none`).
Exponent and hexadecimal forms never occur in the repository's date
fields and are not modelled. -/
def toNumberJ (s : Chars) : Option ℚ :=
  let t := jsTrim s
  if t.isEmpty then some 0
  else
    let (neg, u) : Bool × Chars :=
      match t with
      | '-' :: r => (true, r)
      | '+' :: r => (false, r)
      | _ => (false, t)
    let (ip, r1) := takeDigits u
    let (fp, r2) :=
      match r1 with
      | '.' :: w => takeDigits w
      | _ => (([] : Chars), r1)
    if (ip.isEmpty && fp.isEmpty) || !r2.isEmpty then none
    else
      let v : ℚ := (digitsVal ip : ℚ) + (digitsVal fp : ℚ) / (10 : ℚ) ^ fp.length
      some (if neg then -v else v)

example : toNumberJ "2024".data = some 2024 := by decide

example : toNumberJ "1/2".data = none := by decide

example : toNumberJ "".data = some 0 := by decide

/-! ## Price-cell normalization (the two divergent lineages) -/

/-- Lineage 1's numeric cell: parse, then keep only finite values that
are strictly positive, storing null otherwise. -/
def cellL1 (v : Chars) : Option JsNum :=
  match parseFloatJ v with
  | .num q => if 0 < q then some (.num q) else none
  | _ => none

/-- Lineage 2's numeric cell: parse, then keep any finite value, storing
null otherwise. -/
def cellL2 (v : Chars) : Option JsNum :=
  match parseFloatJ v with
  | .num q => some (.num q)
  | _ => none

/-- Does `needle` occur as a contiguous substring of the second argument
(model of JS `String.prototype.includes`)? -/
def containsSub (needle : Chars) : Chars → Bool
  | [] => needle.isPrefixOf []
  | c :: rest => needle.isPrefixOf (c :: rest) || containsSub needle rest

/-- Lowercase every character (model of `toLowerCase` on the ASCII
headers of the price CSV). -/
def toLowerC (s : Chars) : Chars :=
  s.map Char.toLower

/-- The per-row price map of lineage 1: every entry whose key does not
contain the substring "date" case-insensitively is kept under its
trimmed key with its lineage-1 normalized cell value. -/
def buildPricesL1 (row : List (Chars × Chars)) : List (Chars × Option JsNum) :=
  (row.filter (fun kv => !containsSub "date".data (toLowerC kv.1))).map
    (fun kv => (jsTrim kv.1, cellL1 kv.2))

/-- The per-row price map of lineage 2 (same shape, lineage-2 cell). -/
def buildPricesL2 (row : List (Chars × Chars)) : List (Chars × Option JsNum) :=
  (row.filter (fun kv => !containsSub "date".data (toLowerC kv.1))).map
    (fun kv => (jsTrim kv.1, cellL2 kv.2))

/-! ## Date parsing of the price rows -/

/-- Truncation toward zero, as the platform's `ToInteger` applies to each
argument of the multi-argument `Date` constructor. -/
def truncQ (q : ℚ) : Int :=
  if 0 ≤ q then ⌊q⌋ else -⌊-q⌋

/-- Model of `new Date(y, m, d)` on already-coerced numeric arguments
(`none` = `NaN`, which makes the date invalid): years 0–99 get 1900
added, an out-of-range month borrows from the year, and day overflow
rolls into the following months.  The model is restricted to day values
of at least 1 (the repository's data always has them; the platform would
normalize day 0 or negative days into the preceding months). -/
def newDateYMD (y m d : Option ℚ) : Option CivDate :=
  match y, m, d with
  | some y, some m, some d =>
    let yi := truncQ y
    let mi := truncQ m
    let di := truncQ d
    let y2 := if 0 ≤ yi ∧ yi ≤ 99 then yi + 1900 else yi
    let t := y2 * 12 + mi
    if di < 1 then none
    else some (normDate (t.ediv 12) (t.emod 12).toNat di.toNat)
  | _, _, _ => none

/-- Model of `new Date(string)` for strings without a slash: the standard
ISO `YYYY-MM-DD` date-only form, invalid otherwise.  (Engines accept
further legacy formats; the repository's price CSV uses slash dates,
which take the other branch, so only the ISO form is modelled here.) -/
def newDateStr (s : Chars) : Option CivDate :=
  match s with
  | [a, b, c, d, '-', e, f, '-', g, h] =>
    if ([a, b, c, d, e, f, g, h].all Char.isDigit) then
      let y : Int := (digitsVal [a, b, c, d] : Int)
      let mo := digitsVal [e, f]
      let da := digitsVal [g, h]
      if 1 ≤ mo ∧ mo ≤ 12 ∧ 1 ≤ da ∧ da ≤ daysInMonth y (mo - 1) then
        some ⟨y, mo - 1, da⟩
      else none
    else none
  | _ => none

/-- Lineage 1's date parsing for one row.  A slash-containing string is
split; with exactly three parts the month-first reading is tried and, if
invalid, the day-first reading; with any other number of parts the local
variable holding the date is never assigned, so the later call on it
throws a TypeError — modelled as `Except.error`.  A string without a
slash goes to the single-argument `Date` constructor.  `Except.ok none`
means the row is dropped silently. -/
def parseDateL1 (ds : Chars) : Except Unit (Option CivDate) :=
  if ds.contains '/' then
    let parts := splitOnC '/' ds
    if parts.length = 3 then
      let p0 := parts.getD 0 []
      let p1 := parts.getD 1 []
      let p2 := parts.getD 2 []
      match newDateYMD (toNumberJ p2) ((toNumberJ p0).map (fun x => x - 1)) (toNumberJ p1) with
      | some dt => .ok (some dt)
      | none => .ok (newDateYMD (toNumberJ p2) ((toNumberJ p1).map (fun x => x - 1)) (toNumberJ p0))
    else .error ()
  else .ok (newDateStr ds)

/-- JS object field read on the association-list model: the last
assignment to the key wins (first hit in the reversed list). -/
def jsGet (row : List (Chars × Chars)) (k : Chars) : Option Chars :=
  row.reverse.lookup k

/-- JS logical OR over string-or-missing values: an empty string is falsy
and falls through to the right operand. -/
def jsOrC : Option Chars → Option Chars → Option Chars
  | some s, b => if s.isEmpty then b else some s
  | none, b => b

/-- The date cell of a row, resolved exactly as both lineages do with a
logical-OR chain over the three header spellings. -/
def dateCell (row : List (Chars × Chars)) : Option Chars :=
  jsOrC (jsGet row "Date".data) (jsOrC (jsGet row "date".data) (jsGet row "DATE".data))

/-- A normalized price point as produced by the price-series
normalizers: a calendar date plus the per-ticker cell map. -/
structure PricePointJ where
  date : CivDate
  prices : List (Chars × Option JsNum)
deriving DecidableEq, Repr

/-- Lineage 1's per-row processing (`processedPrices` map body): resolve
the date cell, drop the row when it is falsy or unparseable, propagate
the TypeError of the malformed-slash path, and otherwise attach the
lineage-1 price map. -/
def processRowL1 (row : List (Chars × Chars)) : Except Unit (Option PricePointJ) :=
  match dateCell row with
  | none => .ok none
  | some ds =>
    if ds.isEmpty then .ok none
    else
      match parseDateL1 ds with
      | .error e => .error e
      | .ok none => .ok none
      | .ok (some dt) => .ok (some ⟨dt, buildPricesL1 row⟩)

/-- Lineage 2's per-row processing (`prices` map body): falsy date cell
or invalid parse drops the row, never throwing. -/
def processRowL2 (row : List (Chars × Chars)) : Option PricePointJ :=
  match dateCell row with
  | none => none
  | some ds =>
    if ds.isEmpty then none
    else
      match newDateStr ds with
      | none => none
      | some dt => some ⟨dt, buildPricesL2 row⟩

/-- Insert into a list kept in descending date order (model of the
comparator that subtracts timestamps, newest first). -/
def insertDateDesc (p : PricePointJ) : List PricePointJ → List PricePointJ
  | [] => [p]
  | q :: rest => if dateLtB q.date p.date then p :: q :: rest else q :: insertDateDesc p rest

/-- Sort by date, most recent first (model of the descending timestamp
sort both lineages apply). -/
def sortDateDesc (l : List PricePointJ) : List PricePointJ :=
  l.foldr insertDateDesc []

/-- Effectful map over the rows for lineage 1: the first TypeError aborts
the whole computation, as a throw inside `Array.prototype.map` does. -/
def mapRowsL1 : List (List (Chars × Chars)) → Except Unit (List (Option PricePointJ))
  | [] => .ok []
  | r :: rs =>
    match processRowL1 r with
    | .error e => .error e
    | .ok p =>
      match mapRowsL1 rs with
      | .error e => .error e
      | .ok ps => .ok (p :: ps)

/-- Lineage 1 `processedPrices`: map each row (a throw aborts the load),
discard the dropped rows, sort descending by date. -/
def processedPricesL1 (rows : List (List (Chars × Chars))) : Except Unit (List PricePointJ) :=
  match mapRowsL1 rows with
  | .error e => .error e
  | .ok pts => .ok (sortDateDesc pts.reduceOption)

/-- Lineage 2 `prices`: map each row, discard the dropped ones, sort
descending by date; no path can throw. -/
def pricesL2 (rows : List (List (Chars × Chars))) : List PricePointJ :=
  sortDateDesc (rows.filterMap processRowL2)

/-- Decidable equality on `Except` results, used to evaluate the pipeline
on concrete rows. -/
def exceptDecEq [DecidableEq ε] [DecidableEq α] : DecidableEq (Except ε α)
  | .error a, .error b =>
    if h : a = b then isTrue (by rw [h]) else isFalse (by simp [h])
  | .error _, .ok _ => isFalse (by simp)
  | .ok _, .error _ => isFalse (by simp)
  | .ok a, .ok b =>
    if h : a = b then isTrue (by rw [h]) else isFalse (by simp [h])

instance [DecidableEq ε] [DecidableEq α] : DecidableEq (Except ε α) :=
  exceptDecEq

example :
    processedPricesL1 [[("Date".data, "1/2".data)]] = .error () := by
  decide

example :
    processedPricesL1 [[("Date".data, "5/10/2024".data), ("MCB".data, "12.5".data)]] =
      .ok [⟨⟨2024, 4, 10⟩, [("MCB".data, some (.num (25 / 2)))]⟩] := by
  decide

example :
    pricesL2 [[("Date".data, "2024-05-10".data), ("MCB".data, "-2".data)]] =
      [⟨⟨2024, 4, 10⟩, [("MCB".data, some (.num (-2)))]⟩] := by
  decide

/-! ## Catalog and peer resolution -/

/-- A catalog record as produced by both lineages' stock-list mapping. -/
structure StockRecord where
  symbol : String
  company : String
  sector : String
deriving DecidableEq, Repr

/-- `peerTickers` (identical in both lineages): find the base record by
symbol; absent means no peers; otherwise keep the records of the same
sector with a different symbol, in catalog order, first three only. -/
def peerTickers (stockList : List StockRecord) (baseTicker : String) : List String :=
  match stockList.find? (fun s => s.symbol = baseTicker) with
  | none => []
  | some base =>
    (((stockList.filter (fun s => s.sector = base.sector && s.symbol ≠ baseTicker)).map
      (fun s => s.symbol)).take 3)

/-- The peer-resolution contract as the specification words it: look up
the record whose symbol equals the base symbol, empty when absent,
otherwise the symbols of the other same-sector records in catalog order
truncated to three.  (Stated separately from `peerTickers` so that the
code can be proved to refine the contract.) -/
def resolvePeersSpec (catalog : List StockRecord) (baseSymbol : String) : List String :=
  match catalog.find? (fun s => s.symbol = baseSymbol) with
  | none => []
  | some base =>
    ((catalog.filter (fun s => s.sector = base.sector && s.symbol ≠ baseSymbol)).map
      (fun s => s.symbol)).take 3

/-! ## The analysis layer

Downstream of normalization every price value is a finite number or
null (proved below for the normalizers), so the timeframe filter, the
rebase engine and the returns engine are modelled over points carrying
`Option ℚ` cells, quantified over arbitrary series as the claims do. -/

/-- A price point as consumed by the timeframe filter, the chart builder
and the returns table: a date plus a ticker-indexed nullable value. -/
structure PricePoint where
  date : CivDate
  prices : String → Option ℚ

/-- JS truthiness of a number-or-null cell: present and non-zero. -/
def jsTruthy : Option ℚ → Bool
  | none => false
  | some q => q ≠ 0

/-- `value || null`: keep a truthy value, collapse falsy (null or zero)
to null, as the baseline map construction does. -/
def orNull (v : Option ℚ) : Option ℚ :=
  if jsTruthy v then v else none

/-- The month-count table of the timeframe filter (identical in both
lineages). -/
def monthMap : List (String × Nat) :=
  [("1M", 1), ("3M", 3), ("1Y", 12), ("2Y", 24), ("3Y", 36)]

/-- `filteredData` (identical in both lineages): empty stays empty;
otherwise the start date is January 1st for YTD, or the latest date
minus the mapped number of calendar months (an unknown timeframe leaves
the start at the latest date); keep points dated on or after the start,
in stored order.  The table lookup is truthy exactly when it succeeds,
since every entry is positive. -/
def filteredData (priceData : List PricePoint) (timeframe : String) : List PricePoint :=
  match priceData with
  | [] => []
  | p0 :: _ =>
    let latest := p0.date
    let start :=
      if timeframe = "YTD" then ⟨latest.y, 0, 1⟩
      else
        match monthMap.lookup timeframe with
        | some k => subMonths latest k
        | none => latest
    priceData.filter (fun r => dateLeB start r.date)

/-- The ticker list the chart and returns engines iterate: the active
tickers followed by the two fixed index tickers. -/
def idxTickers (activeTickers : List String) : List String :=
  activeTickers ++ ["SEMDEX", "SEM-10"]

/-- The baseline map `bases`: the oldest filtered point's value for the
ticker, with falsy values collapsed to null (both lineages build it the
same way). -/
def basesOf (filtered : List PricePoint) (t : String) : Option ℚ :=
  match filtered.getLast? with
  | none => none
  | some firstRow => orNull (firstRow.prices t)

/-- The JS `toFixed(2)` rounding on the exact value: nearest multiple of
1/100, ties toward the larger result (the inner division is the floor of
the scaled value plus one half, computed on the reduced fraction). -/
def toFixed2 (q : ℚ) : ℚ :=
  Rat.divInt (Int.fdiv (q * 100 + 1 / 2).num (q * 100 + 1 / 2).den) 100

/-- One chart cell: emitted only when baseline and current price are both
truthy, then the current price rebased to the baseline at 100. -/
def rebaseVal (base cur : Option ℚ) : Option ℚ :=
  if jsTruthy base && jsTruthy cur then some ((cur.getD 0) / (base.getD 0) * 100) else none

/-- A chart output point: the date (the code renders it as a locale
string label, injective on civil dates) plus the per-ticker emitted
values; a ticker absent from the JS object is `none` here. -/
structure ChartPoint where
  date : CivDate
  vals : String → Option ℚ

/-- Lineage 1 `chartData`: reverse the filtered series, and for each row
emit per-ticker rebased values rounded by `toFixed(2)` when baseline and
current price are truthy. -/
def chartDataL1 (filtered : List PricePoint) (activeTickers : List String) : List ChartPoint :=
  match filtered with
  | [] => []
  | _ :: _ =>
    filtered.reverse.map (fun row =>
      { date := row.date,
        vals := fun t =>
          if t ∈ idxTickers activeTickers then
            (rebaseVal (basesOf filtered t) (row.prices t)).map toFixed2
          else none })

/-- Lineage 2 `chartData`: identical but the rebased value is emitted
exactly, with no rounding. -/
def chartDataL2 (filtered : List PricePoint) (activeTickers : List String) : List ChartPoint :=
  match filtered with
  | [] => []
  | _ :: _ =>
    filtered.reverse.map (fun row =>
      { date := row.date,
        vals := fun t =>
          if t ∈ idxTickers activeTickers then
            rebaseVal (basesOf filtered t) (row.prices t)
          else none })

/-- A returns-table row; `none` is the en-dash "no data" sentinel. -/
structure ReturnRow where
  ticker : String
  pct : Option ℚ
deriving DecidableEq, Repr

/-- `returnsTable` (identical in both lineages): for each ticker, when
the oldest and newest filtered prices are truthy, the percent change
rounded by `toFixed(2)`, otherwise the dash sentinel. -/
def returnsTable (filtered : List PricePoint) (activeTickers : List String) : List ReturnRow :=
  match filtered with
  | [] => []
  | f0 :: rest =>
    let first := (f0 :: rest).getLast (List.cons_ne_nil f0 rest)
    (idxTickers activeTickers).map (fun t =>
      { ticker := t,
        pct :=
          if jsTruthy (first.prices t) && jsTruthy (f0.prices t) then
            some (toFixed2
              ((((f0.prices t).getD 0) - ((first.prices t).getD 0)) /
                ((first.prices t).getD 0) * 100))
          else none })

/-! ## Claim C8: peer resolution -/

/-- The spec's worked example catalog: MCB and SBM share the Banking
sector, IBL is a Conglomerate. -/
def demoCatalog : List StockRecord :=
  [⟨"MCB", "MCB Group", "Banking"⟩, ⟨"SBM", "SBM Holdings", "Banking"⟩,
   ⟨"IBL", "IBL Ltd", "Conglomerate"⟩]

/-- C8: `peerTickers` refines the peer-resolution contract: empty when no
catalog record carries the base symbol, otherwise the other same-sector
symbols in catalog order truncated to three (so never more than three);
and on the spec's example catalog with base MCB the peers are exactly
[SBM]. -/
theorem peer_resolution_c8 :
    (∀ (stockList : List StockRecord) (baseTicker : String),
      peerTickers stockList baseTicker = resolvePeersSpec stockList baseTicker ∧
      (peerTickers stockList baseTicker).length ≤ 3 ∧
      ((∀ s ∈ stockList, s.symbol ≠ baseTicker) → peerTickers stockList baseTicker = [])) ∧
    peerTickers demoCatalog "MCB" = ["SBM"] := by
  constructor
  · intro stockList baseTicker
    refine ⟨rfl, ?_, ?_⟩
    · unfold peerTickers
      cases h : stockList.find? (fun s => s.symbol = baseTicker) with
      | none => simp
      | some base => simp [List.length_take]
    · intro habs
      unfold peerTickers
      have : stockList.find? (fun s => s.symbol = baseTicker) = none := by
        rw [List.find?_eq_none]
        intro s hs
        simpa using habs s hs
      rw [this]
  · decide

/-- C8 witness: the absent-symbol hypothesis discharged on the example
catalog with a base symbol that no record carries. -/
theorem peer_resolution_c8_w :
    (∀ s ∈ demoCatalog, s.symbol ≠ "XYZ") ∧ peerTickers demoCatalog "XYZ" = [] :=
  ⟨by decide, (peer_resolution_c8.1 demoCatalog "XYZ").2.2 (by decide)⟩

/-! ## Claim C2: returns computation -/

/-- The returns contract as the claim words it: start is the oldest
(last, in descending storage) point's price, end the newest (first)
point's price; both truthy gives the percent change rounded to two
decimals, otherwise the dash sentinel (`none` here). -/
def returnsRowSpec (filtered : List PricePoint) (t : String) : ReturnRow :=
  { ticker := t,
    pct :=
      match filtered.getLast?.bind (fun p => p.prices t),
            filtered.head?.bind (fun p => p.prices t) with
      | some sv, some ev =>
        if sv ≠ 0 ∧ ev ≠ 0 then some (toFixed2 ((ev - sv) / sv * 100)) else none
      | _, _ => none }

/-- A two-point descending series whose only ticker X moves from 100
(oldest) to 110 (newest). -/
def demoReturns : List PricePoint :=
  [⟨⟨2024, 0, 2⟩, fun t => if t = "X" then some 110 else none⟩,
   ⟨⟨2024, 0, 1⟩, fun t => if t = "X" then some 100 else none⟩]

/-- The same series with the newest endpoint nulled out for X. -/
def demoReturnsNull : List PricePoint :=
  [⟨⟨2024, 0, 2⟩, fun _ => none⟩,
   ⟨⟨2024, 0, 1⟩, fun t => if t = "X" then some 100 else none⟩]

/-- C2: on every non-empty filtered series `returnsTable` produces, for
each ticker in the iterated list, exactly the contract row (rounded
percent change when both endpoints are truthy, dash sentinel otherwise);
in particular oldest 100 / newest 110 for X yields 10 (rendered
"10.00"), and a null endpoint yields the sentinel. -/
theorem returns_computation_c2 :
    (∀ (filtered : List PricePoint) (activeTickers : List String),
      filtered ≠ [] →
      returnsTable filtered activeTickers =
        (idxTickers activeTickers).map (returnsRowSpec filtered)) ∧
    returnsTable demoReturns ["X"] =
      [⟨"X", some 10⟩, ⟨"SEMDEX", none⟩, ⟨"SEM-10", none⟩] ∧
    returnsTable demoReturnsNull ["X"] =
      [⟨"X", none⟩, ⟨"SEMDEX", none⟩, ⟨"SEM-10", none⟩] := by
  refine ⟨?_, ?_, ?_⟩
  · intro filtered activeTickers hne
    match filtered, hne with
    | f0 :: rest, _ =>
      show ((idxTickers activeTickers).map _) = _
      apply List.map_congr_left
      intro t _
      have hlast : (f0 :: rest).getLast? =
          some ((f0 :: rest).getLast (List.cons_ne_nil f0 rest)) :=
        List.getLast?_eq_getLast _ _
      unfold returnsRowSpec
      rw [hlast]
      cases hs : ((f0 :: rest).getLast (List.cons_ne_nil f0 rest)).prices t with
      | none => simp [jsTruthy, hs]
      | some sv =>
        cases he : f0.prices t with
        | none => simp [jsTruthy, hs, he]
        | some ev =>
          by_cases h1 : sv = 0 <;> by_cases h2 : ev = 0 <;>
            simp [jsTruthy, hs, he, h1, h2]
  · decide
  · decide

/-- C2 witness: the general contract applied to the worked 100-to-110
series. -/
theorem returns_computation_c2_w :
    demoReturns ≠ [] ∧
    returnsTable demoReturns ["X"] = (idxTickers ["X"]).map (returnsRowSpec demoReturns) :=
  ⟨List.cons_ne_nil _ _, returns_computation_c2.1 demoReturns ["X"] (List.cons_ne_nil _ _)⟩

/-! ## Claim C3: the 1M timeframe window -/

/-- The 1M window as the claim words it: the start date is the most
recent point's date minus one calendar month (platform rollback
semantics), and exactly the points dated on or after it are kept, in
stored order. -/
def oneMonthWindowSpec (series : List PricePoint) : List PricePoint :=
  match series with
  | [] => []
  | p0 :: _ => series.filter (fun r => dateLeB (subMonths p0.date 1) r.date)

/-- A two-point descending demo series more than a month apart. -/
def demoWindow : List PricePoint :=
  [⟨⟨2024, 4, 10⟩, fun _ => none⟩, ⟨⟨2024, 2, 1⟩, fun _ => none⟩]

/-- C3: `filteredData` at timeframe 1M returns exactly the points within
one calendar month of the latest date (inclusive), preserves descending
order, and maps the empty series to the empty series. -/
theorem timeframe_filter_1m_c3 :
    (∀ series : List PricePoint,
      filteredData series "1M" = oneMonthWindowSpec series) ∧
    (∀ series : List PricePoint,
      series.Pairwise (fun p q => dateLtB q.date p.date = true) →
      (filteredData series "1M").Pairwise (fun p q => dateLtB q.date p.date = true)) ∧
    (∀ tf : String, filteredData [] tf = []) := by
  refine ⟨?_, ?_, ?_⟩
  · intro series
    cases series with
    | nil => rfl
    | cons p0 rest => rfl
  · intro series hs
    cases series with
    | nil => exact List.Pairwise.nil
    | cons p0 rest =>
      unfold filteredData
      exact hs.filter _
  · intro tf
    rfl

/-- C3 witness: the descending-order hypothesis discharged on a concrete
two-point series (the window also drops its out-of-range point). -/
theorem timeframe_filter_1m_c3_w :
    demoWindow.Pairwise (fun p q => dateLtB q.date p.date = true) ∧
    (filteredData demoWindow "1M").Pairwise (fun p q => dateLtB q.date p.date = true) :=
  ⟨by decide, timeframe_filter_1m_c3.2.1 demoWindow (by decide)⟩

/-! ## Claim C7: rebase produces exactly 100 at the start point -/

/-- A two-point descending series with a constant price for X. -/
def demoStart : List PricePoint :=
  [⟨⟨2024, 0, 2⟩, fun t => if t = "X" then some 25 else none⟩,
   ⟨⟨2024, 0, 1⟩, fun t => if t = "X" then some 25 else none⟩]

/-- C7: in every rebase output (either lineage), the oldest output point
carries exactly 100 for every iterated ticker whose baseline is truthy;
the rounding lineage reproduces 100 as well because 100 is exact at two
decimals. -/
theorem rebase_idempotence_c7 :
    ∀ (filtered : List PricePoint) (activeTickers : List String) (t : String),
      filtered ≠ [] → t ∈ idxTickers activeTickers →
      jsTruthy (basesOf filtered t) = true →
      (chartDataL2 filtered activeTickers).head?.map (fun p => p.vals t) = some (some 100) ∧
      (chartDataL1 filtered activeTickers).head?.map (fun p => p.vals t) = some (some 100) := by
  intro filtered activeTickers t hne ht hb
  match filtered, hne with
  | f0 :: rest, _ =>
    have hlast : (f0 :: rest).getLast? =
        some ((f0 :: rest).getLast (List.cons_ne_nil f0 rest)) :=
      List.getLast?_eq_getLast _ _
    set lastP := (f0 :: rest).getLast (List.cons_ne_nil f0 rest) with hl
    have hbase : basesOf (f0 :: rest) t = orNull (lastP.prices t) := by
      unfold basesOf
      rw [hlast]
    cases hv : lastP.prices t with
    | none =>
      rw [hbase, hv] at hb
      simp [orNull, jsTruthy] at hb
    | some b =>
      by_cases hb0 : b = 0
      · rw [hbase, hv, hb0] at hb
        simp [orNull, jsTruthy] at hb
      · have hbase2 : basesOf (f0 :: rest) t = some b := by
          rw [hbase, hv]
          simp [orNull, jsTruthy, hb0]
        have hrb : rebaseVal (basesOf (f0 :: rest) t) (lastP.prices t) = some 100 := by
          rw [hbase2, hv]
          simp [rebaseVal, jsTruthy, hb0, Option.getD]
        have h100 : toFixed2 100 = 100 := by decide
        constructor
        · unfold chartDataL2
          rw [List.head?_map, List.head?_reverse, hlast]
          simp [ht, hrb]
        · unfold chartDataL1
          rw [List.head?_map, List.head?_reverse, hlast]
          simp [ht, hrb, h100]

/-- C7 witness: all three hypotheses discharged on a concrete constant
series. -/
theorem rebase_idempotence_c7_w :
    demoStart ≠ [] ∧ "X" ∈ idxTickers ["X"] ∧ jsTruthy (basesOf demoStart "X") = true ∧
    (chartDataL2 demoStart ["X"]).head?.map (fun p => p.vals "X") = some (some 100) ∧
    (chartDataL1 demoStart ["X"]).head?.map (fun p => p.vals "X") = some (some 100) :=
  ⟨List.cons_ne_nil _ _, by decide, by decide,
   (rebase_idempotence_c7 demoStart ["X"] "X" (List.cons_ne_nil _ _) (by decide)
     (by decide)).1,
   (rebase_idempotence_c7 demoStart ["X"] "X" (List.cons_ne_nil _ _) (by decide)
     (by decide)).2⟩

/-! ## Claim C6: the two cell-normalization policies -/

/-- C6: the two lineages agree on every cell parsing to a positive finite
number, diverge exactly on finite non-positive parses (lineage 1 nulls
them, lineage 2 keeps them), and both null non-finite or unparseable
cells. -/
theorem cell_policy_c6 :
    ∀ (v : Chars) (q : ℚ),
      (parseFloatJ v = .num q → 0 < q →
        cellL1 v = some (.num q) ∧ cellL2 v = some (.num q)) ∧
      (parseFloatJ v = .num q → q ≤ 0 →
        cellL1 v = none ∧ cellL2 v = some (.num q)) ∧
      ((parseFloatJ v = .nan ∨ parseFloatJ v = .inf true ∨ parseFloatJ v = .inf false) →
        cellL1 v = none ∧ cellL2 v = none) := by
  intro v q
  refine ⟨?_, ?_, ?_⟩
  · intro hp hq
    unfold cellL1 cellL2
    rw [hp]
    simp [hq]
  · intro hp hq
    unfold cellL1 cellL2
    rw [hp]
    simp [not_lt.mpr hq]
  · intro hp
    rcases hp with h | h | h <;> unfold cellL1 cellL2 <;> rw [h] <;> exact ⟨rfl, rfl⟩

/-- C6 witness: the divergence discharged on the concrete cell "-3",
which parses to the finite non-positive value -3. -/
theorem cell_policy_c6_w :
    parseFloatJ "-3".data = .num (-3) ∧ ((-3 : ℚ) ≤ 0) ∧
    cellL1 "-3".data = none ∧ cellL2 "-3".data = some (.num (-3)) := by
  have h1 : parseFloatJ "-3".data = .num (-3) := by decide
  have h2 : ((-3 : ℚ) ≤ 0) := by norm_num
  exact ⟨h1, h2, (cell_policy_c6 "-3".data (-3)).2.1 h1 h2⟩

/-! ## Claim C9: the normalizers never store NaN -/

theorem mem_insertDateDesc {x p : PricePointJ} {l : List PricePointJ}
    (h : x ∈ insertDateDesc p l) : x = p ∨ x ∈ l := by
  induction l with
  | nil => simpa [insertDateDesc] using h
  | cons q rest ih =>
    rw [insertDateDesc] at h
    by_cases hc : dateLtB q.date p.date = true
    · rw [if_pos hc] at h
      exact List.mem_cons.mp h
    · rw [if_neg hc] at h
      rcases List.mem_cons.mp h with h | h
      · exact .inr (by simp [h])
      · rcases ih h with h2 | h2
        · exact .inl h2
        · exact .inr (by simp [h2])

theorem mem_sortDateDesc {x : PricePointJ} {l : List PricePointJ}
    (h : x ∈ sortDateDesc l) : x ∈ l := by
  induction l with
  | nil => exact h
  | cons p rest ih =>
    unfold sortDateDesc at h
    rcases mem_insertDateDesc h with h2 | h2
    · simp [h2]
    · exact List.mem_cons_of_mem p (ih h2)

theorem cellL1_shape (v : Chars) :
    cellL1 v = none ∨ ∃ q : ℚ, cellL1 v = some (.num q) := by
  unfold cellL1
  cases parseFloatJ v with
  | num q =>
    by_cases h : 0 < q
    · exact .inr ⟨q, by simp [h]⟩
    · exact .inl (by simp [h])
  | nan => exact .inl rfl
  | inf b => exact .inl rfl

theorem cellL2_shape (v : Chars) :
    cellL2 v = none ∨ ∃ q : ℚ, cellL2 v = some (.num q) := by
  unfold cellL2
  cases parseFloatJ v with
  | num q => exact .inr ⟨q, rfl⟩
  | nan => exact .inl rfl
  | inf b => exact .inl rfl

theorem buildPricesL1_shape (row : List (Chars × Chars)) :
    ∀ kv ∈ buildPricesL1 row, kv.2 = none ∨ ∃ q : ℚ, kv.2 = some (.num q) := by
  intro kv hkv
  unfold buildPricesL1 at hkv
  rcases List.mem_map.mp hkv with ⟨kv0, _, hkv0⟩
  rw [← hkv0]
  exact cellL1_shape kv0.2

theorem buildPricesL2_shape (row : List (Chars × Chars)) :
    ∀ kv ∈ buildPricesL2 row, kv.2 = none ∨ ∃ q : ℚ, kv.2 = some (.num q) := by
  intro kv hkv
  unfold buildPricesL2 at hkv
  rcases List.mem_map.mp hkv with ⟨kv0, _, hkv0⟩
  rw [← hkv0]
  exact cellL2_shape kv0.2

theorem processRowL2_prices {row : List (Chars × Chars)} {pt : PricePointJ}
    (h : processRowL2 row = some pt) : pt.prices = buildPricesL2 row := by
  unfold processRowL2 at h
  split at h
  · exact Option.noConfusion h
  · split at h
    · exact Option.noConfusion h
    · split at h
      · exact Option.noConfusion h
      · cases h
        rfl

theorem processRowL1_prices {row : List (Chars × Chars)} {pt : PricePointJ}
    (h : processRowL1 row = .ok (some pt)) : pt.prices = buildPricesL1 row := by
  unfold processRowL1 at h
  split at h
  · cases h
  · split at h
    · cases h
    · split at h
      · exact Except.noConfusion h
      · cases h
      · cases h
        rfl

theorem mapRowsL1_mem {rows : List (List (Chars × Chars))} {l : List (Option PricePointJ)}
    (h : mapRowsL1 rows = .ok l) {p : Option PricePointJ} (hp : p ∈ l) :
    ∃ row ∈ rows, processRowL1 row = .ok p := by
  induction rows generalizing l with
  | nil =>
    unfold mapRowsL1 at h
    cases h
    cases hp
  | cons r rs ih =>
    unfold mapRowsL1 at h
    split at h
    · exact Except.noConfusion h
    · split at h
      · exact Except.noConfusion h
      · rename_i pv hpv sc2 l0 hl0
        cases h
        rcases List.mem_cons.mp hp with hpe | hpm
        · exact ⟨r, by simp, by rw [hpe]; exact hpv⟩
        · rcases ih hl0 hpm with ⟨row, hrow, hres⟩
          exact ⟨row, by simp [hrow], hres⟩

/-- C9: neither normalizer ever stores NaN (or an infinity): every cell of
every produced price point is null or a finite number, for arbitrary
input rows. -/
theorem no_nan_c9 :
    ∀ rows : List (List (Chars × Chars)),
      (∀ pts, processedPricesL1 rows = .ok pts →
        ∀ pt ∈ pts, ∀ kv ∈ pt.prices, kv.2 = none ∨ ∃ q : ℚ, kv.2 = some (.num q)) ∧
      (∀ pt ∈ pricesL2 rows, ∀ kv ∈ pt.prices,
        kv.2 = none ∨ ∃ q : ℚ, kv.2 = some (.num q)) := by
  intro rows
  constructor
  · intro pts hok pt hpt kv hkv
    unfold processedPricesL1 at hok
    split at hok
    · exact Except.noConfusion hok
    · cases hok
      have hmem := mem_sortDateDesc hpt
      have hsome := List.reduceOption_mem_iff.mp hmem
      rcases mapRowsL1_mem (by assumption) hsome with ⟨row, _, hres⟩
      have := processRowL1_prices hres
      rw [this] at hkv
      exact buildPricesL1_shape row kv hkv
  · intro pt hpt kv hkv
    have hmem := mem_sortDateDesc hpt
    rcases List.mem_filterMap.mp hmem with ⟨row, _, hres⟩
    have := processRowL2_prices hres
    rw [this] at hkv
    exact buildPricesL2_shape row kv hkv

/-- The concrete rows used to witness C9 on both lineages. -/
def demoRows9 : List (List (Chars × Chars)) :=
  [[("Date".data, "2024-05-10".data), ("MCB".data, "-2".data)]]

/-- The concrete rows used to witness the lineage-1 half of C9. -/
def demoRows9a : List (List (Chars × Chars)) :=
  [[("Date".data, "5/10/2024".data), ("MCB".data, "12.5".data)]]

/-- C9 witness: both halves applied at concrete rows, the membership and
success hypotheses discharged by evaluation. -/
theorem no_nan_c9_w :
    processedPricesL1 demoRows9a = .ok [⟨⟨2024, 4, 10⟩, [("MCB".data, some (.num (25 / 2)))]⟩] ∧
    (("MCB".data, some (JsNum.num (25 / 2))) ∈
      (⟨⟨2024, 4, 10⟩, [("MCB".data, some (.num (25 / 2)))]⟩ : PricePointJ).prices) ∧
    (("MCB".data, (some (JsNum.num (25 / 2)) : Option JsNum)).2 = none ∨
      ∃ q : ℚ, ("MCB".data, (some (JsNum.num (25 / 2)) : Option JsNum)).2 = some (.num q)) ∧
    (⟨⟨2024, 4, 10⟩, [("MCB".data, some (.num (-2)))]⟩ : PricePointJ) ∈ pricesL2 demoRows9 ∧
    (("MCB".data, (some (JsNum.num (-2)) : Option JsNum)).2 = none ∨
      ∃ q : ℚ, ("MCB".data, (some (JsNum.num (-2)) : Option JsNum)).2 = some (.num q)) := by
  have h1 : processedPricesL1 demoRows9a =
      .ok [⟨⟨2024, 4, 10⟩, [("MCB".data, some (.num (25 / 2)))]⟩] := by
    decide
  have h2 : (⟨⟨2024, 4, 10⟩, [("MCB".data, some (.num (-2)))]⟩ : PricePointJ) ∈
      pricesL2 demoRows9 := by
    decide
  refine ⟨h1, by simp, ?_, h2, ?_⟩
  · exact (no_nan_c9 demoRows9a).1
      [⟨⟨2024, 4, 10⟩, [("MCB".data, some (.num (25 / 2)))]⟩] h1
      ⟨⟨2024, 4, 10⟩, [("MCB".data, some (.num (25 / 2)))]⟩ (by simp)
      ("MCB".data, some (.num (25 / 2))) (by simp)
  · exact (no_nan_c9 demoRows9).2
      ⟨⟨2024, 4, 10⟩, [("MCB".data, some (.num (-2)))]⟩ h2
      ("MCB".data, some (.num (-2))) (by simp)

/-! ## Claim C10: quoted fields keep their embedded delimiters -/

/-- Wrap a field in literal double quotes, as a CSV writer does. -/
def quoteWrap (f : Chars) : Chars :=
  '"' :: f ++ ['"']

/-- Join fields into one data line with comma separators. -/
def joinComma : List Chars → Chars
  | [] => []
  | [f] => f
  | f :: g :: fs => f ++ ',' :: joinComma (g :: fs)

theorem parseLineGo_open (rest : Chars) (vals : List Chars) (cur : Chars) (inQ : Bool) :
    parseLineGo ('"' :: rest) vals cur inQ = parseLineGo rest vals cur (!inQ) := by
  rw [parseLineGo]
  simp

theorem parseLineGo_sep (rest : Chars) (vals : List Chars) (cur : Chars) :
    parseLineGo (',' :: rest) vals cur false =
      parseLineGo rest (vals ++ [cleanField cur]) [] false := by
  rw [parseLineGo]
  rw [if_neg (by decide : ¬(',' : Char) = '"')]
  rw [if_pos (by decide)]

theorem parseLineGo_accum (f : Chars) (hq : '"' ∉ f) :
    ∀ (rest : Chars) (vals : List Chars) (cur : Chars),
      parseLineGo (f ++ rest) vals cur true = parseLineGo rest vals (cur ++ f) true := by
  induction f with
  | nil =>
    intro rest vals cur
    simp
  | cons c f2 ih =>
    intro rest vals cur
    have hcq : ¬c = '"' := by
      intro hc
      exact hq (by simp [hc])
    have hf2 : '"' ∉ f2 := fun hm => hq (by simp [hm])
    show parseLineGo (c :: (f2 ++ rest)) vals cur true = _
    rw [parseLineGo]
    rw [if_neg hcq]
    rw [if_neg (by simp : ¬((c = ',' && !true) = true))]
    rw [ih hf2 rest vals (cur ++ [c])]
    simp

theorem parseLineGo_quoted (fields : List Chars) (hne : fields ≠ [])
    (hq : ∀ f ∈ fields, '"' ∉ f) :
    ∀ vals : List Chars,
      parseLineGo (joinComma (fields.map quoteWrap)) vals [] false =
        vals ++ fields.map cleanField := by
  induction fields with
  | nil => exact absurd rfl hne
  | cons f gs ih =>
    intro vals
    have hf : '"' ∉ f := hq f (by simp)
    cases gs with
    | nil =>
      show parseLineGo ('"' :: (f ++ ['"'])) vals [] false = _
      rw [parseLineGo_open]
      rw [show (!false) = true from rfl]
      rw [parseLineGo_accum f hf ['"'] vals []]
      rw [parseLineGo_open]
      rw [show (!true) = false from rfl]
      rw [parseLineGo]
      simp
    | cons g gs2 =>
      have hg : ∀ x ∈ g :: gs2, '"' ∉ x := fun x hx => hq x (by simp [hx])
      show parseLineGo ('"' :: (f ++ ['"'] ++ ',' :: joinComma ((g :: gs2).map quoteWrap)))
        vals [] false = _
      rw [parseLineGo_open]
      rw [show (!false) = true from rfl]
      rw [show f ++ ['"'] ++ ',' :: joinComma ((g :: gs2).map quoteWrap) =
        f ++ ('"' :: ',' :: joinComma ((g :: gs2).map quoteWrap)) by simp]
      rw [parseLineGo_accum f hf _ vals []]
      rw [parseLineGo_open]
      rw [show (!true) = false from rfl]
      rw [parseLineGo_sep]
      rw [ih (List.cons_ne_nil g gs2) hg (vals ++ [cleanField ([] ++ f)])]
      simp

/-- C10: a line of quoted fields (none containing a literal quote)
decodes to exactly those fields — each flushed once, trimmed, with its
quotes removed and any embedded commas preserved — because a comma seen
while the inside-quotes flag is set does not separate; in particular the
single field written "A,B" decodes to the single value A,B, also through
the full row decoder. -/
theorem quoted_field_c10 :
    (∀ fields : List Chars, fields ≠ [] → (∀ f ∈ fields, '"' ∉ f) →
      parseLine (joinComma (fields.map quoteWrap)) = fields.map cleanField) ∧
    parseLine "\"A,B\"".data = ["A,B".data] ∧
    parseRowsL1 "h1,h2\n\"A,B\"".data =
      [[("h1".data, "A,B".data), ("h2".data, "".data)]] := by
  refine ⟨?_, by decide, by decide⟩
  intro fields hne hq
  unfold parseLine
  rw [parseLineGo_quoted fields hne hq []]
  simp

/-- C10 witness: the general statement applied to the two concrete fields
A,B (with its embedded comma) and x. -/
theorem quoted_field_c10_w :
    (["A,B".data, "x".data] ≠ ([] : List Chars)) ∧
    (∀ f ∈ ["A,B".data, "x".data], '"' ∉ f) ∧
    parseLine (joinComma (List.map quoteWrap ["A,B".data, "x".data])) =
      List.map cleanField ["A,B".data, "x".data] :=
  ⟨List.cons_ne_nil _ _, by decide,
   quoted_field_c10.1 ["A,B".data, "x".data] (List.cons_ne_nil _ _) (by decide)⟩

/-! ## Claim C4: decoded row count and key set -/

theorem mkRow_map_fst (hs : List Chars) (vals : List Chars) :
    ∀ i : Nat, (mkRow hs i vals).map Prod.fst = hs := by
  induction hs with
  | nil => intro i; rfl
  | cons h hs2 ih =>
    intro i
    simp [mkRow, ih (i + 1)]

theorem mkRow_get? (hs : List Chars) (vals : List Chars) :
    ∀ (k i : Nat),
      (mkRow hs k vals).get? i =
        (hs.get? i).map (fun h => (h, (vals.get? (k + i)).getD [])) := by
  induction hs with
  | nil =>
    intro k i
    simp [mkRow]
  | cons h hs2 ih =>
    intro k i
    cases i with
    | zero => simp [mkRow]
    | succ j =>
      have harith : k + 1 + j = k + (j + 1) := by omega
      simp only [mkRow, List.get?]
      rw [ih (k + 1) j, harith]

theorem mkRow_trailing (hs : List Chars) (vals : List Chars) (i : Nat)
    (h : vals.length ≤ i) :
    (mkRow hs 0 vals).get? i = (hs.get? i).map (fun hd => (hd, ([] : Chars))) := by
  rw [mkRow_get? hs vals 0 i]
  rw [List.get?_eq_none.mpr (by omega : vals.length ≤ 0 + i)]
  rfl

/-- C4 counterexample: the text has a header line and two data lines,
neither blank (the middle one is three empty fields), yet lineage 1's
decoder returns a single row object, not two: its trailing filter drops
the all-empty row. -/
theorem csv_shape_c4_cex :
    linesL1 "a,b\n,,\nx,y".data = ["a,b".data, ",,".data, "x,y".data] ∧
    (parseRowsL1 "a,b\n,,\nx,y".data).length = 1 :=
  ⟨by decide, by decide⟩

/-- C4 (amended): lineage 2 returns exactly one row object per non-empty
data line; lineage 1 returns at most that many, additionally dropping the
rows whose every field value is blank after trimming; in both lineages
every returned row's key list is exactly the header list, and a field
index beyond the parsed values is paired with the empty string. -/
theorem csv_shape_c4 :
    (∀ (text hline : Chars) (rest : List Chars),
      linesL2 text = hline :: rest →
      (parseRowsL2 text).length = rest.length) ∧
    (∀ (text : Chars) (row : List (Chars × Chars)), row ∈ parseRowsL2 text →
      row.map Prod.fst = headersFrom (linesL2 text)) ∧
    (∀ (text : Chars) (row : List (Chars × Chars)), row ∈ parseRowsL1 text →
      row.map Prod.fst = headersFrom (linesL1 text)) ∧
    (∀ (text hline : Chars) (rest : List Chars),
      linesL1 text = hline :: rest →
      (parseRowsL1 text).length ≤ rest.length) ∧
    (∀ (hs vals : List Chars) (i : Nat), vals.length ≤ i →
      (mkRow hs 0 vals).get? i = (hs.get? i).map (fun hd => (hd, ([] : Chars)))) := by
  refine ⟨?_, ?_, ?_, ?_, fun hs vals i h => mkRow_trailing hs vals i h⟩
  · intro text hline rest hl
    unfold parseRowsL2
    rw [hl]
    simp
  · intro text row hrow
    unfold parseRowsL2 at hrow
    unfold headersFrom
    cases hl : linesL2 text with
    | nil =>
      rw [hl] at hrow
      cases hrow
    | cons hline rest =>
      rw [hl] at hrow
      simp only at hrow
      rcases List.mem_map.mp hrow with ⟨line, _, hline2⟩
      rw [← hline2, mkRow_map_fst]
  · intro text row hrow
    unfold parseRowsL1 at hrow
    unfold headersFrom
    cases hl : linesL1 text with
    | nil =>
      rw [hl] at hrow
      cases hrow
    | cons hline rest =>
      rw [hl] at hrow
      simp only at hrow
      have hrow2 := List.mem_of_mem_filter hrow
      rcases List.mem_map.mp hrow2 with ⟨line, _, hline2⟩
      rw [← hline2, mkRow_map_fst]
  · intro text hline rest hl
    unfold parseRowsL1
    rw [hl]
    simp only
    calc ((rest.map fun line => mkRow ((splitOnC ',' hline).map cleanField) 0
            (parseLine line)).filter
            (fun row => row.any (fun kv => !(jsTrim kv.2).isEmpty))).length
        ≤ (rest.map fun line => mkRow ((splitOnC ',' hline).map cleanField) 0
            (parseLine line)).length := List.length_filter_le _ _
      _ = rest.length := List.length_map _ _

/-- C4 witness: the lineage-2 count equation applied to a concrete
two-line text. -/
theorem csv_shape_c4_w :
    linesL2 "a,b\nx,y".data = ["a,b".data, "x,y".data] ∧
    (parseRowsL2 "a,b\nx,y".data).length = 1 :=
  ⟨by decide, csv_shape_c4.1 "a,b\nx,y".data "a,b".data ["x,y".data] (by decide)⟩

/-! ## Claim C1: the rebase output -/

/-- Claim-side chart cell: for an iterated ticker, when both the baseline
price (the oldest, last element of the filtered series) and the current
price are truthy (non-null, non-zero), the current price over the
baseline times 100; otherwise the key is omitted (`none`). -/
def chartSpecVal (filtered : List PricePoint) (ticks : List String) (row : PricePoint)
    (t : String) : Option ℚ :=
  if t ∈ idxTickers ticks then
    match filtered.getLast?.bind (fun p => p.prices t), row.prices t with
    | some b, some c => if b ≠ 0 ∧ c ≠ 0 then some (c / b * 100) else none
    | _, _ => none
  else none

/-- Claim-side chart output, exact values (matches lineage 2). -/
def chartSpecL2 (filtered : List PricePoint) (ticks : List String) : List ChartPoint :=
  filtered.reverse.map (fun row => ⟨row.date, chartSpecVal filtered ticks row⟩)

/-- Claim-side chart output with each emitted value rounded to two
decimals (what lineage 1 actually stores). -/
def chartSpecL1 (filtered : List PricePoint) (ticks : List String) : List ChartPoint :=
  filtered.reverse.map (fun row =>
    ⟨row.date, fun t => (chartSpecVal filtered ticks row t).map toFixed2⟩)

theorem rebaseVal_spec (filtered : List PricePoint) (row : PricePoint) (t : String) :
    rebaseVal (basesOf filtered t) (row.prices t) =
      (match filtered.getLast?.bind (fun p => p.prices t), row.prices t with
       | some b, some c => if b ≠ 0 ∧ c ≠ 0 then some (c / b * 100) else none
       | _, _ => none) := by
  unfold basesOf rebaseVal
  cases hl : filtered.getLast? with
  | none => cases row.prices t <;> simp [jsTruthy]
  | some lastP =>
    simp only [Option.some_bind]
    cases hb : lastP.prices t with
    | none => cases row.prices t <;> simp [orNull, jsTruthy]
    | some b =>
      by_cases hb0 : b = 0
      · cases hc : row.prices t <;> simp [orNull, jsTruthy, hb0]
      · cases hc : row.prices t with
        | none => simp [orNull, jsTruthy, hb0]
        | some c =>
          by_cases hc0 : c = 0 <;> simp [orNull, jsTruthy, hb0, hc0]

theorem chartDataL2_spec (filtered : List PricePoint) (ticks : List String) :
    chartDataL2 filtered ticks = chartSpecL2 filtered ticks := by
  cases filtered with
  | nil => rfl
  | cons f0 rest =>
    unfold chartDataL2 chartSpecL2
    apply List.map_congr_left
    intro row _
    have hfun : (fun t => if t ∈ idxTickers ticks then
        rebaseVal (basesOf (f0 :: rest) t) (row.prices t) else none) =
        chartSpecVal (f0 :: rest) ticks row := by
      funext t
      unfold chartSpecVal
      by_cases ht : t ∈ idxTickers ticks
      · simp only [if_pos ht]
        exact rebaseVal_spec (f0 :: rest) row t
      · simp [ht]
    rw [hfun]

theorem chartDataL1_spec (filtered : List PricePoint) (ticks : List String) :
    chartDataL1 filtered ticks = chartSpecL1 filtered ticks := by
  cases filtered with
  | nil => rfl
  | cons f0 rest =>
    unfold chartDataL1 chartSpecL1
    apply List.map_congr_left
    intro row _
    have hfun : (fun t => if t ∈ idxTickers ticks then
        (rebaseVal (basesOf (f0 :: rest) t) (row.prices t)).map toFixed2 else none) =
        (fun t => (chartSpecVal (f0 :: rest) ticks row t).map toFixed2) := by
      funext t
      unfold chartSpecVal
      by_cases ht : t ∈ idxTickers ticks
      · simp only [if_pos ht]
        rw [rebaseVal_spec (f0 :: rest) row t]
      · simp [ht]
    rw [hfun]

/-- The counterexample series: the only ticker MCB moves from 3 (oldest)
to 1 (newest). -/
def demoCexOld : PricePoint :=
  ⟨⟨2024, 0, 1⟩, fun t => if t = "MCB" then some 3 else none⟩

/-- Newest point of the counterexample series. -/
def demoCexNew : PricePoint :=
  ⟨⟨2024, 0, 2⟩, fun t => if t = "MCB" then some 1 else none⟩

/-- The counterexample series, descending as stored. -/
def demoCex : List PricePoint :=
  [demoCexNew, demoCexOld]

/-- C1 counterexample: at the newest point of the 3-then-1 series,
lineage 1 emits 3333/100 (the two-decimal rounding 33.33), not the exact
currentPrice / baselinePrice * 100 = 1/3 * 100 the claim asserts. -/
theorem rebase_value_c1_cex :
    ((chartDataL1 demoCex ["MCB"]).getLast?.map (fun p => p.vals "MCB")) =
      some (some (Rat.divInt 3333 100)) ∧
    ¬ ((Rat.divInt 3333 100 : ℚ) = 1 / 3 * 100) ∧
    ((chartDataL1 demoCex ["MCB"]).getLast?.map (fun p => p.vals "MCB")) ≠
      some (some (1 / 3 * 100)) :=
  ⟨by decide, by decide,
   by decide⟩

/-- C1 (amended): both lineages emit output points in ascending date
order (the reverse of the descending storage order), and set a ticker key
exactly when both the baseline price (oldest, last element) and the
current price are truthy, omitting the key otherwise (never null);
lineage 2 sets the exact value currentPrice / baselinePrice * 100, which
is never zero, while lineage 1 sets that value rounded to two decimals
(which can round to zero). -/
theorem rebase_chart_c1 :
    ∀ (filtered : List PricePoint) (ticks : List String),
      chartDataL2 filtered ticks = chartSpecL2 filtered ticks ∧
      chartDataL1 filtered ticks = chartSpecL1 filtered ticks ∧
      (chartDataL2 filtered ticks).map (fun p => p.date) =
        (filtered.map (fun p => p.date)).reverse ∧
      (chartDataL1 filtered ticks).map (fun p => p.date) =
        (filtered.map (fun p => p.date)).reverse ∧
      (filtered.Pairwise (fun p q => dateLtB q.date p.date = true) →
        (chartDataL2 filtered ticks).Pairwise (fun p q => dateLtB p.date q.date = true) ∧
        (chartDataL1 filtered ticks).Pairwise (fun p q => dateLtB p.date q.date = true)) ∧
      (∀ p ∈ chartDataL2 filtered ticks, ∀ t : String, p.vals t ≠ some 0) := by
  intro filtered ticks
  have hdates2 : (chartDataL2 filtered ticks).map (fun p => p.date) =
      (filtered.map (fun p => p.date)).reverse := by
    rw [chartDataL2_spec]
    unfold chartSpecL2
    rw [List.map_map, List.map_reverse]
    rfl
  have hdates1 : (chartDataL1 filtered ticks).map (fun p => p.date) =
      (filtered.map (fun p => p.date)).reverse := by
    rw [chartDataL1_spec]
    unfold chartSpecL1
    rw [List.map_map, List.map_reverse]
    rfl
  refine ⟨chartDataL2_spec filtered ticks, chartDataL1_spec filtered ticks,
    hdates2, hdates1, ?_, ?_⟩
  · intro hdesc
    have hrev : filtered.reverse.Pairwise (fun p q => dateLtB p.date q.date = true) :=
      List.pairwise_reverse.mpr hdesc
    constructor
    · rw [chartDataL2_spec]
      unfold chartSpecL2
      exact List.pairwise_map.mpr hrev
    · rw [chartDataL1_spec]
      unfold chartSpecL1
      exact List.pairwise_map.mpr hrev
  · intro p hp t
    rw [chartDataL2_spec] at hp
    unfold chartSpecL2 at hp
    rcases List.mem_map.mp hp with ⟨row, _, hrow⟩
    rw [← hrow]
    unfold chartSpecVal
    by_cases ht : t ∈ idxTickers ticks
    · simp only [if_pos ht]
      cases hb : filtered.getLast?.bind (fun p => p.prices t) with
      | none => simp
      | some b =>
        cases hc : row.prices t with
        | none => simp
        | some c =>
          by_cases hz : b ≠ 0 ∧ c ≠ 0
          · simp only [if_pos hz]
            intro hcontra
            have : c / b * 100 = 0 := by
              injection hcontra
            exact (mul_ne_zero (div_ne_zero hz.2 hz.1) (by norm_num)) this
          · simp [hz]
    · simp [ht]

/-- C1 witness: the descending-order hypothesis discharged on the
concrete 3-then-1 series, giving ascending output order in both
lineages. -/
theorem rebase_chart_c1_w :
    demoCex.Pairwise (fun p q => dateLtB q.date p.date = true) ∧
    (chartDataL2 demoCex ["MCB"]).Pairwise (fun p q => dateLtB p.date q.date = true) ∧
    (chartDataL1 demoCex ["MCB"]).Pairwise (fun p q => dateLtB p.date q.date = true) :=
  ⟨by decide,
   ((rebase_chart_c1 demoCex ["MCB"]).2.2.2.2.1 (by decide)).1,
   ((rebase_chart_c1 demoCex ["MCB"]).2.2.2.2.1 (by decide)).2⟩

/-! ## Claim C5: silent discard of bad dates -/

/-- C5 (code bug in lineage 1): a row whose date cell contains a slash
but does not split into exactly three parts leaves the date variable
unassigned, and the subsequent call on it throws a TypeError that aborts
the whole load — the row is not silently discarded as the specification
requires; a well-formed slash date on the same pipeline processes
normally.  (Lineage 2's normalizer cannot throw at all: its result type
carries no error case.) -/
theorem silent_date_discard_c5 :
    processedPricesL1 [[("Date".data, "1/2".data)]] = .error () ∧
    processedPricesL1 [[("Date".data, "5/10/2024".data), ("MCB".data, "12.5".data)]] =
      .ok [⟨⟨2024, 4, 10⟩, [("MCB".data, some (.num (25 / 2)))]⟩] :=
  ⟨by decide, by decide⟩
